import Mathlib

/-!
Verification of the conflict-bot repository's conflict-detection engine.

The repository consists of three JavaScript sources:
* `src/index.js` — the merge-simulation strategy (`prefetchBranches`,
  `attemptMerge`, `extractConflictingLineNumbers`, `cleanup`, `run`,
  `getOpenPullRequests`, `requestReviews`), embedded below in namespace
  `Index`;
* `src/unnamed/part_000` — an earlier merge-based variant whose `run`
  loop guards record accumulation with the JS truthiness test
  `if (conflictFiles)`, embedded in namespace `Part0`;
* `src/unnamed/part_001` — the patch-overlap strategy (`parsePatchText`,
  `checkForConflicts`), embedded in namespace `Part1`.

Side-effecting steps (git subprocess calls, file reads, API calls) are
embedded as explicit state passing over a list of existing refs plus an
oracle environment describing the outcome of each fallible external call,
and each git invocation is additionally recorded in a command trace.
-/

namespace ConflictBot

/-! ## String primitives

The JS sources use `String.prototype.startsWith`, `split("\n")`, `trim`
and `substr(1)`.  They are embedded over the character list of the Lean
string so that every definition evaluates inside the kernel. -/

/-- Character-list prefix test (the core of `startsWith`). -/
def isPre : List Char → List Char → Bool
  | [], _ => true
  | _ :: _, [] => false
  | a :: p, b :: s => a = b && isPre p s

/-- JS `s.startsWith(p)`. -/
def startsWithL (s p : String) : Bool := isPre p.data s.data

def splitLinesAux : List Char → List Char → List String
  | [], cur => [String.mk cur.reverse]
  | c :: cs, cur =>
    if c = '\n' then String.mk cur.reverse :: splitLinesAux cs []
    else splitLinesAux cs (c :: cur)

/-- JS `s.split("\n")`. -/
def splitLines (s : String) : List String := splitLinesAux s.data []

def isWS (c : Char) : Bool := c = ' ' || c = '\t' || c = '\n' || c = '\r'

/-- JS `s.trim()` (restricted to the whitespace characters that occur in
diff/patch text). -/
def trimL (s : String) : String :=
  String.mk (((s.data.dropWhile isWS).reverse.dropWhile isWS).reverse)

/-- JS `s.substr(1)`. -/
def dropHeadChar (s : String) : String := String.mk (s.data.drop 1)

/-! ## ConflictMarkerParser: `extractConflictingLineNumbers` (src/index.js 170-225)

The JS function reads a file, splits it on `"\n"` and runs a line-by-line
state machine.  The embedding takes the list of split lines (the file read
is input acquisition); `extractConflictingLineNumbersText` composes with
the split itself. -/

/-- The mutable locals of the JS loop in `extractConflictingLineNumbers`. -/
structure MarkerState where
  lineCounter : Nat
  conflictLines : List Nat
  oursBlock : List String
  theirsBlock : List String
  inOursBlock : Bool
  inTheirsBlock : Bool
  conflictStartLine : Nat
deriving DecidableEq, Repr

def markerInit : MarkerState :=
  { lineCounter := 0, conflictLines := [], oursBlock := [], theirsBlock := [],
    inOursBlock := false, inTheirsBlock := false, conflictStartLine := 0 }

/-- The per-block resolution loop
`oursBlock.forEach((ourLine, index) => { if (theirsBlock[index] !== undefined && ourLine !== theirsBlock[index]) ... })`:
an index is emitted only when it is in range on *both* sides and the two
lines differ. -/
def blockDiffLines (startLine : Nat) (ours theirs : List String) : List Nat :=
  (List.range ours.length).filterMap fun i =>
    match ours[i]?, theirs[i]? with
    | some ourLine, some t => if ourLine ≠ t then some (startLine + i) else none
    | _, _ => none

/-- One iteration of the `for (const line of lines)` loop of
`extractConflictingLineNumbers`.  The counter is incremented first, only
outside conflict blocks; the three marker tests mirror the JS
`startsWith` checks in source order. -/
def markerStep (s : MarkerState) (line : String) : MarkerState :=
  let s :=
    if !s.inOursBlock && !s.inTheirsBlock then
      { s with lineCounter := s.lineCounter + 1 }
    else s
  if startsWithL line "<<<<<<< HEAD" then
    { s with inOursBlock := true, conflictStartLine := s.lineCounter }
  else if startsWithL line "=======" then
    { s with inOursBlock := false, inTheirsBlock := true }
  else if startsWithL line ">>>>>>>" then
    { s with inTheirsBlock := false,
             conflictLines :=
               s.conflictLines ++ blockDiffLines s.conflictStartLine s.oursBlock s.theirsBlock,
             oursBlock := [], theirsBlock := [] }
  else if s.inOursBlock then
    { s with oursBlock := s.oursBlock ++ [line] }
  else if s.inTheirsBlock then
    { s with theirsBlock := s.theirsBlock ++ [line] }
  else s

/-- `extractConflictingLineNumbers` on the already-split lines of the file. -/
def extractConflictingLineNumbers (lines : List String) : List Nat :=
  (lines.foldl markerStep markerInit).conflictLines

/-- `extractConflictingLineNumbers` on the raw file content
(`fileContent.split("\n")`). -/
def extractConflictingLineNumbersText (content : String) : List Nat :=
  extractConflictingLineNumbers (splitLines content)

/-- A line that triggers none of the three marker tests of the state
machine. -/
def markerFree (l : String) : Bool :=
  !startsWithL l "<<<<<<< HEAD" && !startsWithL l "=======" && !startsWithL l ">>>>>>>"

/-! ### Behaviour of the marker state machine, phase by phase -/

lemma markerFree_spec {l : String} (h : markerFree l = true) :
    startsWithL l "<<<<<<< HEAD" = false ∧ startsWithL l "=======" = false ∧
      startsWithL l ">>>>>>>" = false := by
  simp only [markerFree, Bool.and_eq_true, Bool.not_eq_true'] at h
  exact ⟨h.1.1, h.1.2, h.2⟩

lemma markerStep_normal (a : String) (h : markerFree a = true) (c st : Nat) (cl : List Nat) :
    markerStep ⟨c, cl, [], [], false, false, st⟩ a = ⟨c + 1, cl, [], [], false, false, st⟩ := by
  obtain ⟨h1, h2, h3⟩ := markerFree_spec h
  simp [markerStep, h1, h2, h3]

lemma foldl_markerStep_normal (ls : List String) (h : ∀ l ∈ ls, markerFree l = true)
    (c st : Nat) (cl : List Nat) :
    ls.foldl markerStep ⟨c, cl, [], [], false, false, st⟩
      = ⟨c + ls.length, cl, [], [], false, false, st⟩ := by
  induction ls generalizing c with
  | nil => simp
  | cons a ls ih =>
    rw [List.foldl_cons, markerStep_normal a (h a (List.mem_cons_self a ls)),
      ih (fun l hl => h l (List.mem_cons_of_mem a hl))]
    congr 1
    simp [List.length_cons]
    omega

lemma markerStep_ours (a : String) (h : markerFree a = true) (c st : Nat) (cl : List Nat)
    (ob tb : List String) :
    markerStep ⟨c, cl, ob, tb, true, false, st⟩ a = ⟨c, cl, ob ++ [a], tb, true, false, st⟩ := by
  obtain ⟨h1, h2, h3⟩ := markerFree_spec h
  simp [markerStep, h1, h2, h3]

lemma foldl_markerStep_ours (ls : List String) (h : ∀ l ∈ ls, markerFree l = true)
    (c st : Nat) (cl : List Nat) (ob tb : List String) :
    ls.foldl markerStep ⟨c, cl, ob, tb, true, false, st⟩
      = ⟨c, cl, ob ++ ls, tb, true, false, st⟩ := by
  induction ls generalizing ob with
  | nil => simp
  | cons a ls ih =>
    rw [List.foldl_cons, markerStep_ours a (h a (List.mem_cons_self a ls)),
      ih (fun l hl => h l (List.mem_cons_of_mem a hl))]
    simp

lemma markerStep_theirs (a : String) (h : markerFree a = true) (c st : Nat) (cl : List Nat)
    (ob tb : List String) :
    markerStep ⟨c, cl, ob, tb, false, true, st⟩ a = ⟨c, cl, ob, tb ++ [a], false, true, st⟩ := by
  obtain ⟨h1, h2, h3⟩ := markerFree_spec h
  simp [markerStep, h1, h2, h3]

lemma foldl_markerStep_theirs (ls : List String) (h : ∀ l ∈ ls, markerFree l = true)
    (c st : Nat) (cl : List Nat) (ob tb : List String) :
    ls.foldl markerStep ⟨c, cl, ob, tb, false, true, st⟩
      = ⟨c, cl, ob, tb ++ ls, false, true, st⟩ := by
  induction ls generalizing tb with
  | nil => simp
  | cons a ls ih =>
    rw [List.foldl_cons, markerStep_theirs a (h a (List.mem_cons_self a ls)),
      ih (fun l hl => h l (List.mem_cons_of_mem a hl))]
    simp

lemma markerStep_open (c st : Nat) (cl : List Nat) :
    markerStep ⟨c, cl, [], [], false, false, st⟩ "<<<<<<< HEAD"
      = ⟨c + 1, cl, [], [], true, false, c + 1⟩ := by
  have h1 : startsWithL "<<<<<<< HEAD" "<<<<<<< HEAD" = true := by decide
  simp [markerStep, h1]

lemma markerStep_sep (c st : Nat) (cl : List Nat) (ob tb : List String) :
    markerStep ⟨c, cl, ob, tb, true, false, st⟩ "======="
      = ⟨c, cl, ob, tb, false, true, st⟩ := by
  have h1 : startsWithL "=======" "<<<<<<< HEAD" = false := by decide
  have h2 : startsWithL "=======" "=======" = true := by decide
  simp [markerStep, h1, h2]

lemma markerStep_close (c st : Nat) (cl : List Nat) (ob tb : List String) :
    markerStep ⟨c, cl, ob, tb, false, true, st⟩ ">>>>>>> other"
      = ⟨c, cl ++ blockDiffLines st ob tb, [], [], false, false, st⟩ := by
  have h1 : startsWithL ">>>>>>> other" "<<<<<<< HEAD" = false := by decide
  have h2 : startsWithL ">>>>>>> other" "=======" = false := by decide
  have h3 : startsWithL ">>>>>>> other" ">>>>>>>" = true := by decide
  simp [markerStep, h1, h2, h3]

/-- Running the state machine over a file consisting of marker-free prefix
`pre`, one conflict block and a marker-free suffix `post` yields exactly the
block's index-wise differences, with the block starting at line
`pre.length + 1`. -/
theorem extract_single_block (pre ours theirs post : List String)
    (hpre : ∀ l ∈ pre, markerFree l = true)
    (hours : ∀ l ∈ ours, markerFree l = true)
    (htheirs : ∀ l ∈ theirs, markerFree l = true)
    (hpost : ∀ l ∈ post, markerFree l = true) :
    extractConflictingLineNumbers
        (pre ++ ["<<<<<<< HEAD"] ++ ours ++ ["======="] ++ theirs ++ [">>>>>>> other"] ++ post)
      = blockDiffLines (pre.length + 1) ours theirs := by
  unfold extractConflictingLineNumbers markerInit
  rw [List.foldl_append, List.foldl_append, List.foldl_append, List.foldl_append,
    List.foldl_append, List.foldl_append]
  rw [foldl_markerStep_normal pre hpre 0 0 []]
  simp only [List.foldl_cons, List.foldl_nil]
  rw [markerStep_open]
  rw [foldl_markerStep_ours ours hours]
  rw [markerStep_sep]
  rw [foldl_markerStep_theirs theirs htheirs]
  rw [markerStep_close]
  rw [foldl_markerStep_normal post hpost]
  simp

/-- `n` is emitted for a block exactly when some index `i` in range on *both*
sides differs and `n = startLine + i`. -/
lemma mem_blockDiffLines {startLine : Nat} {ours theirs : List String} {n : Nat} :
    n ∈ blockDiffLines startLine ours theirs ↔
      ∃ i, i < ours.length ∧ i < theirs.length ∧ ours[i]? ≠ theirs[i]?
        ∧ n = startLine + i := by
  unfold blockDiffLines
  simp only [List.mem_filterMap, List.mem_range]
  constructor
  · rintro ⟨i, hi, hf⟩
    rcases ho : ours[i]? with _ | o <;> rw [ho] at hf
    · simp at hf
    rcases ht : theirs[i]? with _ | t <;> rw [ht] at hf
    · simp at hf
    have hlt : i < theirs.length := by
      by_contra hc
      rw [List.getElem?_eq_none (Nat.le_of_not_lt hc)] at ht
      exact Option.noConfusion ht
    by_cases hne : o = t
    · simp [hne] at hf
    · simp only [ne_eq, hne, not_false_eq_true, if_true, Option.some.injEq] at hf
      exact ⟨i, hi, hlt, by simp [ho, ht, hne], hf.symm⟩
  · rintro ⟨i, hi1, hi2, hne, rfl⟩
    refine ⟨i, hi1, ?_⟩
    rcases ho : ours[i]? with _ | o
    · rw [List.getElem?_eq_none_iff] at ho
      omega
    rcases ht : theirs[i]? with _ | t
    · rw [List.getElem?_eq_none_iff] at ht
      omega
    have hot : o ≠ t := by
      rw [ho, ht] at hne
      simpa using hne
    simp [hot]

/-- **C3** (amended).  At block close the parser emits
`conflictStartLine + index` exactly for each index present in *both* the
accumulated ours and theirs blocks at which the two lines differ; an index
present in one side but absent in the other is never compared and never
emitted.  For a file of marker-free lines `pre`, one conflict block and
marker-free lines `post`, the block starts at line `pre.length + 1` and the
emitted set is characterized accordingly; in particular a block starting at
line 10 with ours `["a","b"]` and theirs `["a","c"]` yields `[11]`, and
ours `["x"]` with theirs `["x","y"]` yields `[]`. -/
theorem c3_markerBlockResolution (pre ours theirs post : List String)
    (hpre : ∀ l ∈ pre, markerFree l = true)
    (hours : ∀ l ∈ ours, markerFree l = true)
    (htheirs : ∀ l ∈ theirs, markerFree l = true)
    (hpost : ∀ l ∈ post, markerFree l = true) (n : Nat) :
    (n ∈ extractConflictingLineNumbers
        (pre ++ ["<<<<<<< HEAD"] ++ ours ++ ["======="] ++ theirs ++ [">>>>>>> other"] ++ post)
      ↔ ∃ i, i < ours.length ∧ i < theirs.length ∧ ours[i]? ≠ theirs[i]?
          ∧ n = pre.length + 1 + i)
    ∧ extractConflictingLineNumbers
        (List.replicate 9 "ctx" ++ ["<<<<<<< HEAD", "a", "b", "=======", "a", "c", ">>>>>>> other"])
        = [11]
    ∧ extractConflictingLineNumbers
        (List.replicate 9 "ctx" ++ ["<<<<<<< HEAD", "x", "=======", "x", "y", ">>>>>>> other"])
        = [] := by
  refine ⟨?_, by decide, by decide⟩
  rw [extract_single_block pre ours theirs post hpre hours htheirs hpost, mem_blockDiffLines]

/-- Witness for `c3_markerBlockResolution` at a concrete block. -/
theorem c3_markerBlockResolution_witness :
    extractConflictingLineNumbers
        (List.replicate 9 "ctx" ++ ["<<<<<<< HEAD", "a", "b", "=======", "a", "c", ">>>>>>> other"])
      = [11] :=
  (c3_markerBlockResolution [] [] [] [] (by decide) (by decide) (by decide) (by decide) 0).2.1

/-- **C3** counterexample to the claim as stated: for a block starting at
line 10 with ours `["x"]` and theirs `["x","y"]`, index 1 is present in one
side but absent in the other, so by the claim `10 + 1 = 11` should be
emitted — the code emits nothing. -/
theorem c3_counterexample :
    extractConflictingLineNumbers
        (List.replicate 9 "ctx" ++ ["<<<<<<< HEAD", "x", "=======", "x", "y", ">>>>>>> other"]) = []
      ∧ (["x"] : List String)[1]? ≠ (["x", "y"] : List String)[1]? := by
  exact ⟨by decide, by decide⟩

/-! ## PatchOverlapAnalyzer: `parsePatchText` and `checkForConflicts`
(src/unnamed/part_001, lines 104-139 and 163-193)

`parsePatchText` matches each patch line against the regular expression
`@@ -\d+,\d+ \+(\d+),\d+ @@` (unanchored, first match, capture group 1); the
matcher is implemented literally below.  `checkForConflicts` filters one
PR's parsed changes by `openPRChangedLines.includes(line)`: in JS,
`Array.prototype.includes` compares the `{lineNumber, content, context}`
*objects* (SameValueZero, i.e. reference identity for objects), which can
never hold between objects built by two separate `parsePatchText` calls.
The embedding uses structural equality of the whole `LineChange` record —
an upper bound on what JS can match, since reference-equal objects are
structurally equal; the theorems below only use inputs on which even
structural equality fails, so they hold a fortiori of the JS behaviour. -/

namespace Part1

def digitsToNat (ds : List Char) : Nat :=
  ds.foldl (fun n c => n * 10 + (c.toNat - 48)) 0

/-- Greedy `\d+`: one or more digits. -/
def takeDigits (cs : List Char) : Option (Nat × List Char) :=
  let ds := cs.takeWhile Char.isDigit
  if ds.isEmpty then none
  else some (digitsToNat ds, cs.dropWhile Char.isDigit)

/-- Consume an exact literal piece of the pattern. -/
def stripLit : List Char → List Char → Option (List Char)
  | [], cs => some cs
  | _ :: _, [] => none
  | a :: p, b :: cs => if a = b then stripLit p cs else none

/-- Match `@@ -\d+,\d+ \+(\d+),\d+ @@` at the current position and return
capture group 1.  `\d+` is greedy and followed by a non-digit in the
pattern, so no backtracking can occur. -/
def matchHunkAt (cs : List Char) : Option Nat :=
  (stripLit "@@ -".toList cs).bind fun cs =>
  (takeDigits cs).bind fun p1 =>
  (stripLit ",".toList p1.2).bind fun cs =>
  (takeDigits cs).bind fun p2 =>
  (stripLit " +".toList p2.2).bind fun cs =>
  (takeDigits cs).bind fun cap =>
  (stripLit ",".toList cap.2).bind fun cs =>
  (takeDigits cs).bind fun p4 =>
  (stripLit " @@".toList p4.2).map fun _ => cap.1

/-- First match anywhere in the line, as JS `line.match(regex)`. -/
def findHunkCapture : List Char → Option Nat
  | [] => none
  | c :: cs =>
    match matchHunkAt (c :: cs) with
    | some n => some n
    | none => findHunkCapture cs

def hunkCapture (line : String) : Option Nat := findHunkCapture line.data

/-- One parsed change: `{lineNumber, content, context}` as pushed by
`parsePatchText`. -/
structure LineChange where
  lineNumber : Int
  content : String
  context : List (Option String)
deriving DecidableEq, Repr

/-- JS `lines[i]` for a possibly negative index. -/
def jsLine? (lines : List String) (i : Int) : Option String :=
  if i < 0 then none else lines[i.toNat]?

/-- JS `lines[i] ? lines[i].trim() : null`: an out-of-range access is
`undefined` and the empty string is falsy, so both yield `null`. -/
def jsCtx (lines : List String) (i : Int) : Option String :=
  match jsLine? lines i with
  | none => none
  | some s => if s = "" then none else some (trimL s)

/-- `parsePatchText` (src/unnamed/part_001, 104-139).  A hunk header seeds
`currentNewLineNumber` at capture−1; every non-deletion line advances it;
an addition line (not the `+++` file header) is recorded at the current
counter with the ±2 context window. -/
def parsePatchText (patchText : String) : List LineChange :=
  let lines := splitLines patchText
  ((List.range lines.length).foldl (fun st i =>
    let line := lines.getD i ""
    match hunkCapture line with
    | some n => ((n : Int) - 1, st.2)
    | none =>
      let cur := if startsWithL line "-" then st.1 else st.1 + 1
      if startsWithL line "+" && !startsWithL line "+++" then
        (cur, st.2 ++ [{ lineNumber := cur, content := trimL (dropHeadChar line),
                         context := [jsCtx lines ((i : Int) - 2), jsCtx lines ((i : Int) - 1),
                                     jsCtx lines ((i : Int) + 1), jsCtx lines ((i : Int) + 2)] }])
      else (cur, st.2)) ((0 : Int), ([] : List LineChange))).2

/-- One entry of `conflictInfo.conflicts`: note the code pushes the
overlapping `LineChange` *objects*, not line numbers. -/
structure FileConflict where
  file : String
  lines : List LineChange
deriving DecidableEq, Repr

structure ConflictInfo where
  hasConflict : Bool
  conflicts : List FileConflict
deriving DecidableEq, Repr

/-- `openPRChangedFilesData.hasOwnProperty(filePath)` plus the keyed read;
the per-file data objects iterate in insertion order, modelled by an
association list. -/
def lookupData (data : List (String × List LineChange)) (k : String) :
    Option (List LineChange) :=
  (data.find? (fun p => p.1 == k)).map (fun p => p.2)

/-- `checkForConflicts` (src/unnamed/part_001, 163-193). -/
def checkForConflicts (changedFilesData openPRChangedFilesData :
    List (String × List LineChange)) : ConflictInfo :=
  changedFilesData.foldl (fun info p =>
    match lookupData openPRChangedFilesData p.1 with
    | some openPRChangedLines =>
      let overlappingLines := p.2.filter (fun line => openPRChangedLines.contains line)
      if overlappingLines.length > 0 then
        { hasConflict := true, conflicts := info.conflicts ++ [⟨p.1, overlappingLines⟩] }
      else info
    | none => info) ⟨false, []⟩

/-- Patch of a proposal replacing line 42 of its file with `addedA`. -/
def patchA : String := "@@ -42,1 +42,1 @@\n-oldA\n+addedA"

/-- Patch of a second proposal replacing line 42 of the same file with
`addedB`. -/
def patchB : String := "@@ -42,1 +42,1 @@\n-oldA\n+addedB"

end Part1

/-- **C1**: the code, evaluated at two proposals that both add content at
post-image line 42 of the same file `a.txt`.  Both parsed hunks carry a
`LineChange` at post-image line 42, yet `checkForConflicts` reports no
conflict, because the filter compares the whole `LineChange` objects (in
JS, by object identity) rather than file path and post-image line number:
the claimed overlap at line 42 is not reported. -/
theorem c1_code_eval :
    (Part1.parsePatchText Part1.patchA).map (fun c => c.lineNumber) = [42]
      ∧ (Part1.parsePatchText Part1.patchB).map (fun c => c.lineNumber) = [42]
      ∧ (Part1.checkForConflicts [("a.txt", Part1.parsePatchText Part1.patchA)]
          [("a.txt", Part1.parsePatchText Part1.patchB)]).hasConflict = false
      ∧ (Part1.checkForConflicts [("a.txt", Part1.parsePatchText Part1.patchA)]
          [("a.txt", Part1.parsePatchText Part1.patchB)]).conflicts = [] := by
  refine ⟨by decide, by decide, by decide, by decide⟩

/-! ## Shared pieces of src/index.js, src/unnamed/part_000 and part_001 -/

/-- One entry of the GitHub listing, reduced to the fields the sources
keep: `{ number: pr.number, user: pr.user }`, with `user` standing for
`user.login`. -/
structure PR where
  number : Nat
  login : String
deriving DecidableEq, Repr

/-- `getOpenPullRequests` (identical in all three sources): one call to
`octokit.rest.pulls.list` with `state: "open"` and `per_page: 100` and no
pagination, so the result is the first page of at most 100 open PRs in
backend order. -/
def getOpenPullRequests (allOpen : List PR) : List PR :=
  allOpen.take 100

/-- `[...new Set(l)]`: deduplication keeping the first occurrence of each
element, in order. -/
def jsSetDedupAux (seen : List String) : List String → List String
  | [] => []
  | x :: xs =>
    if x ∈ seen then jsSetDedupAux seen xs
    else x :: jsSetDedupAux (x :: seen) xs

def jsSetDedup (l : List String) : List String := jsSetDedupAux [] l

/-- Outcome oracle for the merge of the other side's branch:
`clean` — the `git merge` call succeeds; `conflictAuto files` — it throws
with `"Automatic merge failed"` on stdout and `git diff --name-only
--diff-filter=U` lists `files`; `otherFail` — it throws without that
signature. -/
inductive PairMergeResult where
  | clean
  | conflictAuto (files : List String)
  | otherFail
deriving DecidableEq, Repr

/-! ## MergeSimulator: src/index.js

`prefetchBranches`, `attemptMerge`, `cleanup` and the `run` loop issue git
subprocess calls; the embedding threads the list of existing temporary
refs through each function, takes an oracle for each fallible git call,
and records every issued git command in a trace.  The two commands of
`attemptMerge`'s `finally` block (`git reset --hard HEAD`,
`git update-ref -d`) and the `git checkout` after a successful fetch are
modelled as succeeding. -/

namespace Index

inductive GitCmd where
  | fetch (src dst : String)
  | checkout (ref : String)
  | merge (ref : String)
  | diffUnmergedNames
  | readFile (path : String)
  | resetHard
  | updateRefDelete (ref : String)
deriving DecidableEq, Repr

/-- The temporary ref `refs/remotes/origin/tmp_<branch>`. -/
def tmpRef (branch : String) : String := "refs/remotes/origin/tmp_" ++ branch

def addRef (refs : List String) (r : String) : List String :=
  if r ∈ refs then refs else refs ++ [r]

/-- Oracle for one `attemptMerge` call: whether the fetch of the other
PR's branch succeeds, whether `git merge main` succeeds, the outcome of
merging the other branch, and the conflicted working-tree contents read
by `readFileSync`. -/
structure MergeEnv where
  fetchOk : Bool
  mainMergeOk : Bool
  pairMerge : PairMergeResult
  workTree : List (String × String)
deriving DecidableEq, Repr

def readWorkTree (wt : List (String × String)) (f : String) : String :=
  ((wt.find? (fun p => p.1 == f)).map (fun p => p.2)).getD ""

/-- `attemptMerge` (src/index.js 227-272), returning
`(conflictData, refs after, git trace)`.

The JS control flow: the `try` block fetches the other branch into
`tmp_<pr2Branch>`, checks it out, merges `main` into it (rethrowing into
the outer catch on failure, which only logs), then merges
`tmp_<pr2Branch>` itself; if that throws with the `"Automatic merge
failed"` signature it fills `conflictData[filename]` with the raw
`extractConflictingLineNumbers` output for each unmerged path, and any
other failure is swallowed.  The `finally` block resets the tree and
deletes `tmp_<pr2Branch>` on every path, so the refs component is
independent of the merge outcome, and `conflictData` is nonempty only on
the `conflictAuto` outcome with both earlier steps succeeded. -/
def attemptMerge (env : MergeEnv) (pr2Branch : String) (refs : List String) :
    List (String × List Nat) × List String × List GitCmd :=
  let t := tmpRef pr2Branch
  let refsMid := if env.fetchOk then addRef refs t else refs
  let conflictData :=
    if env.fetchOk && env.mainMergeOk then
      match env.pairMerge with
      | .conflictAuto files =>
        files.map (fun f => (f, extractConflictingLineNumbersText (readWorkTree env.workTree f)))
      | _ => []
    else []
  let tr :=
    if env.fetchOk then
      [GitCmd.fetch pr2Branch t, GitCmd.checkout t, GitCmd.merge "main"]
        ++ (if env.mainMergeOk then
              [GitCmd.merge t]
                ++ (match env.pairMerge with
                    | .conflictAuto files =>
                      GitCmd.diffUnmergedNames :: files.map GitCmd.readFile
                    | _ => [])
            else [])
    else [GitCmd.fetch pr2Branch t]
  (conflictData, refsMid.filter (fun r => r != t),
   tr ++ [GitCmd.resetHard, GitCmd.updateRefDelete t])

/-- Oracle for `prefetchBranches`: whether its fetch/checkout/merge
sequence runs to completion (its own `catch` only logs on failure). -/
structure PrefetchEnv where
  fetchOk : Bool
deriving DecidableEq, Repr

/-- `prefetchBranches` (src/index.js 73-96): fetch `main`, fetch the focal
branch into `tmp_<pr1Branch>`, check it out and merge `main` into it,
uncommitted.  The two `git config` identity calls are elided from the
trace. -/
def prefetchBranches (env : PrefetchEnv) (pr1Branch : String) (refs : List String) :
    List String × List GitCmd :=
  if env.fetchOk then
    (addRef refs (tmpRef pr1Branch),
     [GitCmd.fetch "main" "main", GitCmd.fetch pr1Branch (tmpRef pr1Branch),
      GitCmd.checkout (tmpRef pr1Branch), GitCmd.merge "main"])
  else (refs, [GitCmd.fetch "main" "main"])

/-- `cleanup` (src/index.js 98-105): delete `tmp_<pr1Branch>`; a failure
of the deletion is caught and logged. -/
def cleanup (pr1Branch : String) (refs : List String) : List String :=
  refs.filter (fun r => r != tmpRef pr1Branch)

/-- Oracle for one pair of the `run` loop: the other PR's branch name as
resolved by `getBranchName` (`none` models the throw on a falsy name or a
failed API call), its changed files, and the `attemptMerge` oracle. -/
structure PairEnv where
  branchName : Option String
  files : List String
  mergeEnv : MergeEnv

/-- `checkForConflicts` (src/index.js 129-142): `none` models the
propagated `getBranchName` throw; otherwise the file-overlap prefilter
short-circuits with `[]` and a nonempty overlap runs `attemptMerge`. -/
def checkForConflicts (pr1Files : List String) (env : PairEnv) (refs : List String) :
    Option (List (String × List Nat) × List String) :=
  match env.branchName with
  | none => none
  | some pr2Branch =>
    let overlappingFiles := pr1Files.filter (fun f => env.files.contains f)
    if overlappingFiles.isEmpty then some ([], refs)
    else
      let r := attemptMerge env.mergeEnv pr2Branch refs
      some (r.1, r.2.1)

/-- One record of `conflictArray`. -/
structure ConflictRecord where
  number : Nat
  user : String
  conflictData : List (String × List Nat)
deriving DecidableEq, Repr

/-- Result of the `for (const openPullRequest of otherOpenPullRequests)`
loop: `failed` carries the message of a propagated throw (ending the loop
and the run), `evaluated` the numbers of the pairs for which
`checkForConflicts` was invoked, and `refsAfterPair` the refs existing
after each completed pair evaluation. -/
structure LoopOut where
  failed : Option String
  conflictArray : List ConflictRecord
  evaluated : List Nat
  refs : List String
  refsAfterPair : List (List String)
deriving DecidableEq, Repr

def runLoop (pr1Files : List String) (envFor : Nat → PairEnv) :
    List PR → List String → List ConflictRecord → List Nat → List (List String) → LoopOut
  | [], refs, acc, eval, snaps => ⟨none, acc, eval, refs, snaps⟩
  | pr :: rest, refs, acc, eval, snaps =>
    match checkForConflicts pr1Files (envFor pr.number) refs with
    | none =>
      ⟨some ("Failed to fetch branch name for " ++ toString pr.number), acc,
        eval ++ [pr.number], refs, snaps⟩
    | some (conflictData, refs1) =>
      let acc1 :=
        if conflictData.length > 0 then acc ++ [⟨pr.number, pr.login, conflictData⟩] else acc
      runLoop pr1Files envFor rest refs1 acc1 (eval ++ [pr.number]) (snaps ++ [refs1])

/-- The reviewer computation of `requestReviews` (src/index.js 326-332):
`[...new Set(conflictArray.map(c => c.user).filter(u => u !== prAuthor))]`. -/
def requestReviewsReviewers (conflictArray : List ConflictRecord) (prAuthor : String) :
    List String :=
  jsSetDedup ((conflictArray.map (fun c => c.user)).filter (fun u => u != prAuthor))

/-- The whole-run result: `failed` is the `core.setFailed` message if any,
`reviewers` the set requested when the run reached the
`conflictArray.length > 0` branch, `refs` the temp refs existing after
the `finally` cleanup. -/
structure RunResult where
  failed : Option String
  conflictArray : List ConflictRecord
  reviewers : List String
  evaluated : List Nat
  refs : List String
  refsAfterPair : List (List String)
deriving DecidableEq, Repr

/-- `run` (src/index.js 6-71).  A `none` focal branch name models the
`getBranchName` throw for the focal PR (the `finally` then interpolates
the JS `undefined` into the ref name it deletes).  Otherwise: prefetch,
loop over the other open PRs of the single capped listing, and — when the
loop did not throw and `conflictArray` is nonempty — compute the
requested reviewers.  The `finally` cleanup always runs. -/
def run (focal : PR) (allOpen : List PR) (pr1BranchName : Option String)
    (pr1Files : List String) (pre : PrefetchEnv) (envFor : Nat → PairEnv)
    (refs0 : List String) : RunResult :=
  match pr1BranchName with
  | none =>
    { failed := some "Failed to fetch branch name for main PR", conflictArray := [],
      reviewers := [], evaluated := [], refs := cleanup "undefined" refs0,
      refsAfterPair := [] }
  | some pr1Branch =>
    let others := (getOpenPullRequests allOpen).filter (fun pr => pr.number != focal.number)
    let refs1 := (prefetchBranches pre pr1Branch refs0).1
    let out := runLoop pr1Files envFor others refs1 [] [] []
    let reviewers :=
      if out.failed = none ∧ out.conflictArray.length > 0 then
        requestReviewsReviewers out.conflictArray focal.login
      else []
    { failed := out.failed, conflictArray := out.conflictArray, reviewers := reviewers,
      evaluated := out.evaluated, refs := cleanup pr1Branch out.refs,
      refsAfterPair := out.refsAfterPair }

end Index

/-! ### Generic facts about the Index embedding -/

lemma mem_addRef {refs : List String} {t r : String} (h : r ∈ Index.addRef refs t) :
    r ∈ refs ∨ r = t := by
  unfold Index.addRef at h
  split at h
  · exact Or.inl h
  · rcases List.mem_append.mp h with h | h
    · exact Or.inl h
    · simp at h
      exact Or.inr h

lemma attemptMerge_fetchFail_data {env : Index.MergeEnv} (h : env.fetchOk = false)
    (b : String) (refs : List String) :
    (Index.attemptMerge env b refs).1 = [] := by
  simp [Index.attemptMerge, h]

lemma checkForConflicts_isSome {pr1Files : List String} {env : Index.PairEnv}
    {refs : List String} {b : String} (h : env.branchName = some b) :
    ∃ cd refs', Index.checkForConflicts pr1Files env refs = some (cd, refs') := by
  unfold Index.checkForConflicts
  rw [h]
  dsimp only
  split
  · exact ⟨[], refs, rfl⟩
  · exact ⟨_, _, rfl⟩

/-- **C2**: the git command sequence issued by `attemptMerge` for a pair,
evaluated with every external call succeeding and a clean merge, for the
other PR's branch `beta`.  The working baseline checked out is
`tmp_beta` — the *other* side's TempRef — and the conflict-deciding merge
target is that same `tmp_beta`: the merge is of B's branch into a
checkout of B's own branch (after absorbing `main`).  No command
references the focal side's `tmp_alpha`; `attemptMerge` does not even
receive the focal branch. -/
theorem c2_code_eval :
    (Index.attemptMerge ⟨true, true, .clean, []⟩ "beta" []).2.2
      = [Index.GitCmd.fetch "beta" (Index.tmpRef "beta"),
         Index.GitCmd.checkout (Index.tmpRef "beta"),
         Index.GitCmd.merge "main",
         Index.GitCmd.merge (Index.tmpRef "beta"),
         Index.GitCmd.resetHard,
         Index.GitCmd.updateRefDelete (Index.tmpRef "beta")]
      ∧ Index.GitCmd.checkout (Index.tmpRef "alpha")
          ∉ (Index.attemptMerge ⟨true, true, .clean, []⟩ "beta" []).2.2
      ∧ Index.GitCmd.merge (Index.tmpRef "alpha")
          ∉ (Index.attemptMerge ⟨true, true, .clean, []⟩ "beta" []).2.2 := by
  exact ⟨by decide, by decide, by decide⟩

/-- A concrete two-pair run, all external calls succeeding and both merges
clean: focal PR 1 (`alice`, branch `mainpr`), other PRs 2 and 3 with
overlapping files. -/
def c4Run : Index.RunResult :=
  Index.run ⟨1, "alice"⟩ [⟨1, "alice"⟩, ⟨2, "bob"⟩, ⟨3, "carol"⟩] (some "mainpr") ["a.txt"]
    ⟨true⟩
    (fun n =>
      if n = 2 then ⟨some "b2", ["a.txt"], ⟨true, true, .clean, []⟩⟩
      else ⟨some "b3", ["a.txt"], ⟨true, true, .clean, []⟩⟩)
    []

/-- **C4** counterexample: in the concrete two-pair run `c4Run`, the focal
PR's TempRef `tmp_mainpr` is still present in the backend after the first
pairwise comparison returns and after the second one too — a TempRef
persists across two sequential pair evaluations and is deleted only by the
run-final `cleanup` — contradicting the claim that after any pairwise
comparison both TempRefs for that pair are absent. -/
theorem c4_counterexample :
    c4Run.refsAfterPair = [[Index.tmpRef "mainpr"], [Index.tmpRef "mainpr"]]
      ∧ c4Run.refs = [] := by
  exact ⟨by decide, by decide⟩

/-- **C4** (amended).  The TempRef `attemptMerge` itself creates and uses
for the pair — the other PR's `tmp_<pr2Branch>` — is absent from the
backend when the comparison returns, on every modelled exit path (the
`finally` block's reset and deletion are modelled as succeeding), and the
comparison leaves no new refs behind; the focal PR's TempRef, created once
by `prefetchBranches` before the loop, is *not* deleted per pair: it
persists across sequential pair evaluations and disappears only with the
run-final `cleanup`, as the concrete run `c4Run` shows. -/
theorem c4_pairTempRefDeleted (env : Index.MergeEnv) (pr2Branch : String)
    (refs : List String) :
    (Index.tmpRef pr2Branch ∉ (Index.attemptMerge env pr2Branch refs).2.1
      ∧ ∀ r ∈ (Index.attemptMerge env pr2Branch refs).2.1, r ∈ refs)
    ∧ (c4Run.refsAfterPair = [[Index.tmpRef "mainpr"], [Index.tmpRef "mainpr"]]
      ∧ c4Run.refs = []) := by
  refine ⟨⟨?_, ?_⟩, by decide, by decide⟩
  · intro hmem
    simp only [Index.attemptMerge] at hmem
    rw [List.mem_filter] at hmem
    simp at hmem
  · intro r hr
    simp only [Index.attemptMerge] at hr
    rw [List.mem_filter] at hr
    obtain ⟨h1, h2⟩ := hr
    by_cases hf : env.fetchOk = true
    · rw [if_pos hf] at h1
      rcases mem_addRef h1 with h | h
      · exact h
      · rw [h] at h2
        simp at h2
    · rw [if_neg hf] at h1
      exact h1

/-- Witness for `c4_pairTempRefDeleted` at a concrete comparison. -/
theorem c4_pairTempRefDeleted_witness :
    Index.tmpRef "beta" ∉ (Index.attemptMerge ⟨true, true, .clean, []⟩ "beta" ["keep"]).2.1
      ∧ "keep" ∈ (["keep"] : List String) :=
  ⟨(c4_pairTempRefDeleted ⟨true, true, .clean, []⟩ "beta" ["keep"]).1.1,
   (c4_pairTempRefDeleted ⟨true, true, .clean, []⟩ "beta" ["keep"]).1.2 "keep" (by decide)⟩

/-- A concrete run in which the branch name of the first other PR (PR 2)
fails to resolve while everything about PR 3 would succeed. -/
def c5Run : Index.RunResult :=
  Index.run ⟨1, "alice"⟩ [⟨1, "alice"⟩, ⟨2, "bob"⟩, ⟨3, "carol"⟩] (some "mainpr") ["a.txt"]
    ⟨true⟩
    (fun n =>
      if n = 2 then ⟨none, ["a.txt"], ⟨true, true, .clean, []⟩⟩
      else ⟨some "b3", ["a.txt"], ⟨true, true, .clean, []⟩⟩)
    []

/-- **C5** counterexample: in `c5Run` the failure to resolve PR 2's branch
ref terminates the whole run as failed (`core.setFailed`) and PR 3 is
never evaluated — the run does not continue with the next pair. -/
theorem c5_counterexample :
    c5Run.failed = some "Failed to fetch branch name for 2"
      ∧ c5Run.evaluated = [2]
      ∧ 3 ∉ c5Run.evaluated := by
  exact ⟨by decide, by decide, by decide⟩

/-- **C5** (amended).  A *git-level* failure to fetch the other PR's
branch is non-fatal: it is caught and logged inside `attemptMerge`, the
pair yields no conflict data, and the loop continues.  But a failure to
*resolve* the other PR's branch name through the API throws out of the
loop: the run terminates as failed after evaluating exactly the pairs up
to and including the failing one, and the remaining pairs are never
processed. -/
theorem c5_refFailureHandling :
    (∀ (pr1Files : List String) (env : Index.PairEnv) (refs : List String) (b : String),
        env.branchName = some b → env.mergeEnv.fetchOk = false →
        ∃ refs', Index.checkForConflicts pr1Files env refs = some ([], refs'))
    ∧ (∀ (pr1Files : List String) (envFor : Nat → Index.PairEnv) (l1 l2 : List PR)
         (p : PR) (refs : List String) (acc : List Index.ConflictRecord)
         (eval : List Nat) (snaps : List (List String)),
        (∀ q ∈ l1, (envFor q.number).branchName ≠ none) →
        (envFor p.number).branchName = none →
        (Index.runLoop pr1Files envFor (l1 ++ p :: l2) refs acc eval snaps).failed
            = some ("Failed to fetch branch name for " ++ toString p.number)
          ∧ (Index.runLoop pr1Files envFor (l1 ++ p :: l2) refs acc eval snaps).evaluated
            = eval ++ l1.map (fun q => q.number) ++ [p.number]) := by
  constructor
  · intro pr1Files env refs b hb hf
    unfold Index.checkForConflicts
    rw [hb]
    dsimp only
    split
    · exact ⟨refs, rfl⟩
    · exact ⟨_, by rw [attemptMerge_fetchFail_data hf]⟩
  · intro pr1Files envFor l1 l2 p refs acc eval snaps hres hp
    induction l1 generalizing refs acc eval snaps with
    | nil =>
      simp only [List.nil_append, Index.runLoop]
      unfold Index.checkForConflicts
      rw [hp]
      exact ⟨rfl, by simp⟩
    | cons q l1 ih =>
      have hq := hres q (List.mem_cons_self q l1)
      obtain ⟨b, hb⟩ := Option.ne_none_iff_exists'.mp hq
      obtain ⟨cd, refs', heq⟩ :=
        @checkForConflicts_isSome pr1Files (envFor q.number) refs b hb
      rw [List.cons_append, Index.runLoop, heq]
      have := ih refs' (if cd.length > 0 then acc ++ [⟨q.number, q.login, cd⟩] else acc)
        (eval ++ [q.number]) (snaps ++ [refs'])
        (fun r hr => hres r (List.mem_cons_of_mem q hr))
      refine ⟨this.1, ?_⟩
      rw [this.2]
      simp

/-! ## The earlier merge-based variant: src/unnamed/part_000

Its `attemptMerge(pr1, pr2)` checks out the focal branch and merges the
other branch into it, returning only the list of unmerged file names (no
line extraction).  Its `run` loop calls the *async* `checkForConflicts`
**without `await`** (line 21), so the accumulated `conflictFiles` value
is a pending Promise, guarded by the always-truthy `if (conflictFiles)`;
downstream, `createConflictComment` calls
`conflict.conflictFiles.forEach(...)` on that Promise, which has no
`forEach`, so the first record raises a TypeError that the function's
`catch` rethrows into `run`'s catch — `requestReviews` is unreachable
whenever `conflictArray` is nonempty. -/

namespace Part0

/-- An un-awaited JS Promise: the stored object is the pending Promise,
`eventual` its eventual resolution value. -/
structure JsPromise (α : Type) where
  eventual : α
deriving DecidableEq, Repr

/-- `attemptMerge` (src/unnamed/part_000, 129-157): the names of the
unmerged files when the merge throws with the `"Automatic merge failed"`
signature, `[]` on a clean merge or an unrecognized failure. -/
def attemptMerge (m : PairMergeResult) : List String :=
  match m with
  | .clean => []
  | .conflictAuto files => files
  | .otherFail => []

/-- `checkForConflicts` (src/unnamed/part_000, 87-107): the eventual
resolution value of the async function.  Both branch names are modelled
as resolving; the file-overlap prefilter short-circuits with `[]` before
any merge is attempted. -/
def checkForConflicts (pr1Files pr2Files : List String) (m : PairMergeResult) :
    List String :=
  let overlappingFiles := pr1Files.filter (fun f => pr2Files.contains f)
  if overlappingFiles.isEmpty then []
  else attemptMerge m

/-- One entry of part_000's `conflictArray`: because `checkForConflicts`
is called without `await`, `conflictFiles` holds the pending Promise, not
a file list. -/
structure Record0 where
  number : Nat
  user : String
  conflictFiles : JsPromise (List String)
deriving DecidableEq, Repr

/-- The guard `if (conflictFiles)` of part_000's `run` loop:
`conflictFiles` is always an object (a pending Promise — and an array
would be no different), and every object is truthy in JS, so the guard
always passes. -/
def promiseTruthy (_ : JsPromise (List String)) : Bool := true

/-- Per-pair oracle for part_000: the other PR's changed files and the
merge outcome. -/
structure PairEnv0 where
  pr2Files : List String
  merge : PairMergeResult
deriving Repr

/-- The accumulation loop of part_000's `run` (lines 20-36): the
un-awaited `checkForConflicts` call is a Promise of its eventual value,
pushed whenever the always-true truthiness guard passes. -/
def run0 (focal : PR) (allOpen : List PR) (pr1Files : List String)
    (envFor : Nat → PairEnv0) : List Record0 :=
  let others := (getOpenPullRequests allOpen).filter (fun pr => pr.number != focal.number)
  others.foldl (fun acc pr =>
    let conflictFiles := JsPromise.mk
      (checkForConflicts pr1Files (envFor pr.number).pr2Files (envFor pr.number).merge)
    if promiseTruthy conflictFiles then acc ++ [⟨pr.number, pr.login, conflictFiles⟩]
    else acc) []

/-- `createConflictComment` (src/unnamed/part_000, 160-188): the body
executes `conflict.conflictFiles.forEach(...)` for each record; a pending
Promise has no `forEach`, so the first record throws a TypeError, which
the function's `catch` logs and rethrows.  With no records the `forEach`
body never runs and an empty comment is posted. -/
def createConflictComment0 (conflictArray : List Record0) : Except String Unit :=
  match conflictArray with
  | [] => Except.ok ()
  | _ :: _ => Except.error "TypeError: conflict.conflictFiles.forEach is not a function"

/-- Result of part_000's whole `run`: the `core.setFailed` message if its
catch fired, the accumulated records, and the reviewers actually passed
to `requestReviews` (empty when that call is never reached). -/
structure Run0Result where
  failed : Option String
  conflictArray : List Record0
  requestedReviewers : List String
deriving DecidableEq, Repr

/-- The reviewer computation of part_000's `requestReviews` (190-216),
identical to the one in src/index.js. -/
def requestReviewsReviewers0 (conflictArray : List Record0) (prAuthor : String) :
    List String :=
  jsSetDedup ((conflictArray.map (fun c => c.user)).filter (fun u => u != prAuthor))

/-- part_000's `run` (lines 5-63) end to end: accumulate, and when
`conflictArray` is nonempty first `await createConflictComment(...)` —
whose rethrown TypeError lands in `run`'s catch, so `requestReviews` is
reached only if the comment step succeeded. -/
def run0Pipeline (focal : PR) (allOpen : List PR) (pr1Files : List String)
    (envFor : Nat → PairEnv0) : Run0Result :=
  let conflictArray := run0 focal allOpen pr1Files envFor
  if conflictArray.length > 0 then
    match createConflictComment0 conflictArray with
    | Except.error e => ⟨some e, conflictArray, []⟩
    | Except.ok _ =>
      ⟨none, conflictArray, requestReviewsReviewers0 conflictArray focal.login⟩
  else ⟨none, conflictArray, []⟩

end Part0

/-- **C6**: part_000's code evaluated at a pair whose file sets are
disjoint (focal touches `a.txt`, PR 2 touches only `b.txt`).  The
prefilter correctly yields no conflict files, but the loop guard
`if (conflictFiles)` is an always-true object-truthiness test (the value
is a pending Promise, truthy like any array), so a ConflictRecord whose
file list resolves to empty is still accumulated for the disjoint
pair. -/
theorem c6_code_eval :
    Part0.checkForConflicts ["a.txt"] ["b.txt"] PairMergeResult.clean = []
      ∧ Part0.run0 ⟨1, "alice"⟩ [⟨1, "alice"⟩, ⟨2, "bob"⟩] ["a.txt"]
          (fun _ => ⟨["b.txt"], PairMergeResult.clean⟩)
        = [⟨2, "bob", Part0.JsPromise.mk []⟩] := by
  exact ⟨by decide, by decide⟩

/-! ### Reviewer-set lemmas -/

lemma mem_jsSetDedupAux {u : String} {seen l : List String}
    (h : u ∈ jsSetDedupAux seen l) : u ∈ l := by
  induction l generalizing seen with
  | nil => simp [jsSetDedupAux] at h
  | cons x xs ih =>
    unfold jsSetDedupAux at h
    split at h
    · exact List.mem_cons_of_mem _ (ih h)
    · rcases List.mem_cons.mp h with h | h
      · rw [h]
        exact List.mem_cons_self x xs
      · exact List.mem_cons_of_mem _ (ih h)

lemma mem_requestReviewsReviewers {ca : List Index.ConflictRecord} {pa u : String}
    (h : u ∈ Index.requestReviewsReviewers ca pa) :
    u ≠ pa ∧ ∃ c ∈ ca, c.user = u := by
  unfold Index.requestReviewsReviewers jsSetDedup at h
  have h1 := mem_jsSetDedupAux h
  rw [List.mem_filter] at h1
  obtain ⟨hmap, hne⟩ := h1
  refine ⟨by simpa using hne, ?_⟩
  obtain ⟨c, hc, hcu⟩ := List.mem_map.mp hmap
  exact ⟨c, hc, hcu⟩

/-- `[...new Set(l)]` preserves membership exactly (for elements not
already marked as seen). -/
lemma mem_jsSetDedupAux_iff {u : String} :
    ∀ {l seen : List String}, u ∉ seen → (u ∈ jsSetDedupAux seen l ↔ u ∈ l) := by
  intro l
  induction l with
  | nil =>
    intro seen _
    rw [jsSetDedupAux]
  | cons x xs ih =>
    intro seen hseen
    rw [jsSetDedupAux]
    by_cases hx : x ∈ seen
    · rw [if_pos hx, ih hseen, List.mem_cons]
      constructor
      · exact Or.inr
      · rintro (h | h)
        · exact absurd (h ▸ hx) hseen
        · exact h
    · rw [if_neg hx, List.mem_cons, List.mem_cons]
      by_cases hux : u = x
      · simp [hux]
      · have hus : u ∉ x :: seen := by
          rw [List.mem_cons]
          rintro (h | h)
          · exact hux h
          · exact hseen h
        rw [ih hus]

/-- Full characterization of the reviewer computation
`[...new Set(conflictArray.map(c => c.user).filter(u => u !== prAuthor))]`. -/
lemma mem_requestReviewsReviewers_iff {ca : List Index.ConflictRecord} {pa u : String} :
    u ∈ Index.requestReviewsReviewers ca pa ↔ (u ≠ pa ∧ ∃ c ∈ ca, c.user = u) := by
  unfold Index.requestReviewsReviewers jsSetDedup
  rw [mem_jsSetDedupAux_iff (List.not_mem_nil u), List.mem_filter]
  constructor
  · rintro ⟨hmap, hne⟩
    obtain ⟨c, hc, hcu⟩ := List.mem_map.mp hmap
    exact ⟨by simpa using hne, c, hc, hcu⟩
  · rintro ⟨hne, c, hc, hcu⟩
    exact ⟨List.mem_map.mpr ⟨c, hc, hcu⟩, by simpa using hne⟩

/-- In the src/index.js loop a record is appended only when its
`conflictData` is a nonempty mapping. -/
lemma runLoop_conflictArray_nonempty (pr1Files : List String) (envFor : Nat → Index.PairEnv) :
    ∀ (l : List PR) (refs : List String) (acc : List Index.ConflictRecord)
      (eval : List Nat) (snaps : List (List String)),
      (∀ c ∈ acc, c.conflictData ≠ []) →
      ∀ c ∈ (Index.runLoop pr1Files envFor l refs acc eval snaps).conflictArray,
        c.conflictData ≠ [] := by
  intro l
  induction l with
  | nil =>
    intro refs acc eval snaps hacc c hc
    rw [Index.runLoop] at hc
    exact hacc c hc
  | cons pr rest ih =>
    intro refs acc eval snaps hacc c hc
    rw [Index.runLoop] at hc
    cases heq : Index.checkForConflicts pr1Files (envFor pr.number) refs with
    | none =>
      rw [heq] at hc
      exact hacc c hc
    | some v =>
      obtain ⟨cd, refs1⟩ := v
      rw [heq] at hc
      dsimp only at hc
      refine ih refs1 _ (eval ++ [pr.number]) (snaps ++ [refs1]) ?_ c hc
      intro c' hc'
      by_cases hcd : cd.length > 0
      · rw [if_pos hcd] at hc'
        rcases List.mem_append.mp hc' with h | h
        · exact hacc c' h
        · simp only [List.mem_singleton] at h
          rw [h]
          intro hnil
          dsimp only at hnil
          rw [hnil] at hcd
          simp at hcd
      · rw [if_neg hcd] at hc'
        exact hacc c' hc'

/-- **C7** (amended).  For every run of src/index.js, the focal author is
never placed in the requested reviewer set; and whenever the run
processes all pairs without failing, the requested reviewer set *equals*
the set of distinct authors of the accumulated records — which all carry
a nonempty conflict mapping, i.e. are conflicting proposals — minus the
focal author: `u` is requested iff `u` is a non-focal author of some
accumulated conflicting record.  (In the part_000 variant no reviewer
set is ever derived: the crash shown in the counterexample precedes
`requestReviews`.) -/
theorem c7_reviewerSet (focal : PR) (allOpen : List PR) (pr1BranchName : Option String)
    (pr1Files : List String) (pre : Index.PrefetchEnv) (envFor : Nat → Index.PairEnv)
    (refs0 : List String) :
    focal.login ∉ (Index.run focal allOpen pr1BranchName pr1Files pre envFor refs0).reviewers
    ∧ ((Index.run focal allOpen pr1BranchName pr1Files pre envFor refs0).failed = none →
        ∀ u, u ∈ (Index.run focal allOpen pr1BranchName pr1Files pre envFor refs0).reviewers
          ↔ (u ≠ focal.login
              ∧ ∃ c ∈ (Index.run focal allOpen pr1BranchName pr1Files pre envFor
                  refs0).conflictArray,
                  c.user = u ∧ c.conflictData ≠ [])) := by
  cases pr1BranchName with
  | none =>
    constructor
    · intro hmem
      simp [Index.run] at hmem
    · intro hfail
      simp [Index.run] at hfail
  | some b =>
    simp only [Index.run]
    by_cases hcond :
        (Index.runLoop pr1Files envFor
          ((getOpenPullRequests allOpen).filter (fun pr => pr.number != focal.number))
          (Index.prefetchBranches pre b refs0).1 [] [] []).failed = none
        ∧ 0 < (Index.runLoop pr1Files envFor
          ((getOpenPullRequests allOpen).filter (fun pr => pr.number != focal.number))
          (Index.prefetchBranches pre b refs0).1 [] [] []).conflictArray.length
    · rw [if_pos hcond]
      constructor
      · intro hmem
        exact (mem_requestReviewsReviewers hmem).1 rfl
      · intro hfail u
        rw [mem_requestReviewsReviewers_iff]
        constructor
        · rintro ⟨hne, c, hc, hcu⟩
          refine ⟨hne, c, hc, hcu, ?_⟩
          exact runLoop_conflictArray_nonempty pr1Files envFor _ _ [] [] []
            (fun c hc => absurd hc (List.not_mem_nil c)) c hc
        · rintro ⟨hne, c, hc, hcu, _⟩
          exact ⟨hne, c, hc, hcu⟩
    · rw [if_neg hcond]
      constructor
      · intro hmem
        exact absurd hmem (List.not_mem_nil _)
      · intro hfail u
        constructor
        · intro hu
          exact absurd hu (List.not_mem_nil u)
        · rintro ⟨hne, c, hc, hcu, hcd⟩
          exact absurd ⟨hfail, List.length_pos.mpr (List.ne_nil_of_mem hc)⟩ hcond

/-- Witness for `c7_reviewerSet` at a concrete conflicting run. -/
theorem c7_reviewerSet_witness :
    "alice" ∉ (Index.run ⟨1, "alice"⟩ [⟨1, "alice"⟩, ⟨2, "bob"⟩] (some "m") ["a.txt"] ⟨true⟩
        (fun _ => ⟨some "b2", ["a.txt"],
          ⟨true, true, PairMergeResult.conflictAuto ["a.txt"], [("a.txt", "x")]⟩⟩)
        []).reviewers
    ∧ ("bob" ∈ (Index.run ⟨1, "alice"⟩ [⟨1, "alice"⟩, ⟨2, "bob"⟩] (some "m") ["a.txt"] ⟨true⟩
        (fun _ => ⟨some "b2", ["a.txt"],
          ⟨true, true, PairMergeResult.conflictAuto ["a.txt"], [("a.txt", "x")]⟩⟩)
        []).reviewers
      ↔ ("bob" ≠ "alice"
          ∧ ∃ c ∈ (Index.run ⟨1, "alice"⟩ [⟨1, "alice"⟩, ⟨2, "bob"⟩] (some "m") ["a.txt"]
              ⟨true⟩
              (fun _ => ⟨some "b2", ["a.txt"],
                ⟨true, true, PairMergeResult.conflictAuto ["a.txt"], [("a.txt", "x")]⟩⟩)
              []).conflictArray, c.user = "bob" ∧ c.conflictData ≠ [])) :=
  ⟨(c7_reviewerSet ⟨1, "alice"⟩ [⟨1, "alice"⟩, ⟨2, "bob"⟩] (some "m") ["a.txt"] ⟨true⟩
      (fun _ => ⟨some "b2", ["a.txt"],
        ⟨true, true, PairMergeResult.conflictAuto ["a.txt"], [("a.txt", "x")]⟩⟩) []).1,
   (c7_reviewerSet ⟨1, "alice"⟩ [⟨1, "alice"⟩, ⟨2, "bob"⟩] (some "m") ["a.txt"] ⟨true⟩
      (fun _ => ⟨some "b2", ["a.txt"],
        ⟨true, true, PairMergeResult.conflictAuto ["a.txt"], [("a.txt", "x")]⟩⟩) []).2
      (by decide) "bob"⟩

/-- **C7** counterexample: part_000 evaluated at a genuinely conflicting
pair — PR 2 (author `bob`) shares `a.txt` with the focal PR and the merge
reports an automatic-merge failure on it, so the accumulated record's
`conflictFiles` Promise resolves to the nonempty `["a.txt"]`.  Yet
`conflictFiles` is a pending Promise, `createConflictComment` throws a
TypeError on its `forEach`, the run fails, and `requestReviews` is never
reached: the requested reviewer set is empty while the set of distinct
authors of conflicting proposals is `{bob}` — the claimed equality fails
on this cited source. -/
theorem c7_counterexample :
    (Part0.run0Pipeline ⟨1, "alice"⟩ [⟨1, "alice"⟩, ⟨2, "bob"⟩] ["a.txt"]
        (fun _ => ⟨["a.txt"], PairMergeResult.conflictAuto ["a.txt"]⟩)).requestedReviewers
      = []
    ∧ (Part0.run0Pipeline ⟨1, "alice"⟩ [⟨1, "alice"⟩, ⟨2, "bob"⟩] ["a.txt"]
        (fun _ => ⟨["a.txt"], PairMergeResult.conflictAuto ["a.txt"]⟩)).failed
      = some "TypeError: conflict.conflictFiles.forEach is not a function"
    ∧ (Part0.run0Pipeline ⟨1, "alice"⟩ [⟨1, "alice"⟩, ⟨2, "bob"⟩] ["a.txt"]
        (fun _ => ⟨["a.txt"], PairMergeResult.conflictAuto ["a.txt"]⟩)).conflictArray
      = [⟨2, "bob", Part0.JsPromise.mk ["a.txt"]⟩] := by
  exact ⟨by decide, by decide, by decide⟩

/-- Witness for `c5_refFailureHandling` at concrete inputs. -/
theorem c5_refFailureHandling_witness :
    (∃ refs', Index.checkForConflicts ["a.txt"]
        ⟨some "b2", ["a.txt"], ⟨false, true, .clean, []⟩⟩ ["r0"] = some ([], refs'))
    ∧ (Index.runLoop ["a.txt"]
        (fun n => if n = 3 then ⟨none, [], ⟨true, true, .clean, []⟩⟩
                  else ⟨some "b2", ["b.txt"], ⟨true, true, .clean, []⟩⟩)
        ([⟨2, "bob"⟩] ++ ⟨3, "carol"⟩ :: []) [] [] [] []).failed
      = some ("Failed to fetch branch name for " ++ toString (3 : Nat)) :=
  ⟨c5_refFailureHandling.1 ["a.txt"] ⟨some "b2", ["a.txt"], ⟨false, true, .clean, []⟩⟩
      ["r0"] "b2" rfl rfl,
   (c5_refFailureHandling.2 ["a.txt"]
      (fun n => if n = 3 then ⟨none, [], ⟨true, true, .clean, []⟩⟩
                else ⟨some "b2", ["b.txt"], ⟨true, true, .clean, []⟩⟩)
      [⟨2, "bob"⟩] [] ⟨3, "carol"⟩ [] [] [] [] (by decide) (by decide)).1⟩

/-! ## C8: how conflicting line numbers reach the record -/

/-- Conflicted working-tree content with two adjacent conflict blocks:
the first block (starting at line 1) emits lines 1 and 2; the second
block's opening marker is the only line counted between them, so it
starts at line 2 and emits 2 again. -/
def dupContent : String :=
  "<<<<<<< HEAD\na\nx\n=======\nb\ny\n>>>>>>> o\n<<<<<<< HEAD\nc\n=======\nd\n>>>>>>> o"

/-- **C8** counterexample: `attemptMerge` stores the parser's output for
`f.txt` as-is — here `[1, 2, 2]`, which contains a duplicate and is
therefore not the claimed ordered, strictly increasing, deduplicated
sequence; no deduplication or sorting happens before storing. -/
theorem c8_counterexample :
    (Index.attemptMerge
        ⟨true, true, PairMergeResult.conflictAuto ["f.txt"], [("f.txt", dupContent)]⟩
        "beta" []).1
      = [("f.txt", [1, 2, 2])]
    ∧ ¬ ([1, 2, 2] : List Nat).Nodup := by
  exact ⟨by decide, by decide⟩

/-- **C8** (amended).  On the conflict path the caller stores, for each
unmerged file, exactly the raw output of `extractConflictingLineNumbers`
on that file's working-tree content — unmodified, with no deduplication
and no sorting — and that output can contain duplicates, as `dupContent`
shows. -/
theorem c8_rawParserOutputStored (env : Index.MergeEnv) (pr2Branch : String)
    (refs : List String) (files : List String) (hf : env.fetchOk = true)
    (hm : env.mainMergeOk = true) (hp : env.pairMerge = PairMergeResult.conflictAuto files) :
    (Index.attemptMerge env pr2Branch refs).1
        = files.map (fun f =>
            (f, extractConflictingLineNumbersText (Index.readWorkTree env.workTree f)))
    ∧ extractConflictingLineNumbersText dupContent = [1, 2, 2]
    ∧ ¬ ([1, 2, 2] : List Nat).Nodup := by
  refine ⟨?_, by decide, by decide⟩
  simp [Index.attemptMerge, hf, hm, hp]

/-- Witness for `c8_rawParserOutputStored` at a concrete conflict. -/
theorem c8_rawParserOutputStored_witness :
    (Index.attemptMerge
        ⟨true, true, PairMergeResult.conflictAuto ["f.txt"], [("f.txt", dupContent)]⟩
        "beta" []).1
      = (["f.txt"].map (fun f =>
          (f, extractConflictingLineNumbersText
                (Index.readWorkTree [("f.txt", dupContent)] f)))) :=
  (c8_rawParserOutputStored
    ⟨true, true, PairMergeResult.conflictAuto ["f.txt"], [("f.txt", dupContent)]⟩
    "beta" [] ["f.txt"] rfl rfl rfl).1

/-! ## C10: the listing cap -/

lemma runLoop_evaluated_from (pr1Files : List String) (envFor : Nat → Index.PairEnv) :
    ∀ (l : List PR) (refs : List String) (acc : List Index.ConflictRecord)
      (eval : List Nat) (snaps : List (List String)),
      ∀ n ∈ (Index.runLoop pr1Files envFor l refs acc eval snaps).evaluated,
        n ∈ eval ∨ ∃ pr ∈ l, pr.number = n := by
  intro l
  induction l with
  | nil =>
    intro refs acc eval snaps n hn
    rw [Index.runLoop] at hn
    exact Or.inl hn
  | cons pr rest ih =>
    intro refs acc eval snaps n hn
    rw [Index.runLoop] at hn
    cases heq : Index.checkForConflicts pr1Files (envFor pr.number) refs with
    | none =>
      rw [heq] at hn
      dsimp only at hn
      rcases List.mem_append.mp hn with h | h
      · exact Or.inl h
      · simp only [List.mem_singleton] at h
        exact Or.inr ⟨pr, List.mem_cons_self pr rest, h.symm⟩
    | some v =>
      obtain ⟨cd, refs1⟩ := v
      rw [heq] at hn
      dsimp only at hn
      rcases ih refs1 _ (eval ++ [pr.number]) (snaps ++ [refs1]) n hn with h | ⟨q, hq, hqn⟩
      · rcases List.mem_append.mp h with h | h
        · exact Or.inl h
        · simp only [List.mem_singleton] at h
          exact Or.inr ⟨pr, List.mem_cons_self pr rest, h.symm⟩
      · exact Or.inr ⟨q, List.mem_cons_of_mem pr hq, hqn⟩

lemma runLoop_records_from (pr1Files : List String) (envFor : Nat → Index.PairEnv) :
    ∀ (l : List PR) (refs : List String) (acc : List Index.ConflictRecord)
      (eval : List Nat) (snaps : List (List String)),
      ∀ c ∈ (Index.runLoop pr1Files envFor l refs acc eval snaps).conflictArray,
        c ∈ acc ∨ ∃ pr ∈ l, pr.number = c.number ∧ pr.login = c.user := by
  intro l
  induction l with
  | nil =>
    intro refs acc eval snaps c hc
    rw [Index.runLoop] at hc
    exact Or.inl hc
  | cons pr rest ih =>
    intro refs acc eval snaps c hc
    rw [Index.runLoop] at hc
    cases heq : Index.checkForConflicts pr1Files (envFor pr.number) refs with
    | none =>
      rw [heq] at hc
      exact Or.inl hc
    | some v =>
      obtain ⟨cd, refs1⟩ := v
      rw [heq] at hc
      dsimp only at hc
      rcases ih refs1 _ (eval ++ [pr.number]) (snaps ++ [refs1]) c hc with h | ⟨q, hq, hqn⟩
      · by_cases hcd : cd.length > 0
        · rw [if_pos hcd] at h
          rcases List.mem_append.mp h with h | h
          · exact Or.inl h
          · simp only [List.mem_singleton] at h
            refine Or.inr ⟨pr, List.mem_cons_self pr rest, ?_⟩
            rw [h]
            exact ⟨rfl, rfl⟩
        · rw [if_neg hcd] at h
          exact Or.inl h
      · exact Or.inr ⟨q, List.mem_cons_of_mem pr hq, hqn⟩

/-- **C10**: the candidate set is drawn from one listing call capped at
100 results (`per_page: 100`, no pagination): at most 100 proposals are
returned, every evaluated pair, every record of the report and every
requested reviewer stems from a proposal among the first 100 returned by
the backend, so an open proposal beyond the first 100 is never evaluated
and can never appear in the report or the reviewer set. -/
theorem c10_listingCap (focal : PR) (allOpen : List PR) (pr1BranchName : Option String)
    (pr1Files : List String) (pre : Index.PrefetchEnv) (envFor : Nat → Index.PairEnv)
    (refs0 : List String) :
    (getOpenPullRequests allOpen).length ≤ 100
    ∧ (∀ n ∈ (Index.run focal allOpen pr1BranchName pr1Files pre envFor refs0).evaluated,
        ∃ pr ∈ allOpen.take 100, pr.number = n)
    ∧ (∀ c ∈ (Index.run focal allOpen pr1BranchName pr1Files pre envFor refs0).conflictArray,
        ∃ pr ∈ allOpen.take 100, pr.number = c.number ∧ pr.login = c.user)
    ∧ (∀ u ∈ (Index.run focal allOpen pr1BranchName pr1Files pre envFor refs0).reviewers,
        ∃ pr ∈ allOpen.take 100, pr.login = u) := by
  refine ⟨?_, ?_, ?_, ?_⟩
  · rw [getOpenPullRequests, List.length_take]
    exact Nat.min_le_left 100 allOpen.length
  all_goals cases pr1BranchName with
  | none =>
    intro x hx
    simp [Index.run] at hx
  | some b => ?_
  · intro n hn
    simp only [Index.run] at hn
    rcases runLoop_evaluated_from pr1Files envFor _ _ [] [] [] n hn with h | ⟨pr, hpr, hn⟩
    · exact absurd h (List.not_mem_nil n)
    · exact ⟨pr, (List.mem_filter.mp hpr).1, hn⟩
  · intro c hc
    simp only [Index.run] at hc
    rcases runLoop_records_from pr1Files envFor _ _ [] [] [] c hc with h | ⟨pr, hpr, hn⟩
    · exact absurd h (List.not_mem_nil c)
    · exact ⟨pr, (List.mem_filter.mp hpr).1, hn⟩
  · intro u hu
    simp only [Index.run] at hu
    by_cases hcond :
        (Index.runLoop pr1Files envFor
          ((getOpenPullRequests allOpen).filter (fun pr => pr.number != focal.number))
          (Index.prefetchBranches pre b refs0).1 [] [] []).failed = none
        ∧ 0 < (Index.runLoop pr1Files envFor
          ((getOpenPullRequests allOpen).filter (fun pr => pr.number != focal.number))
          (Index.prefetchBranches pre b refs0).1 [] [] []).conflictArray.length
    · rw [if_pos hcond] at hu
      obtain ⟨hne, c, hc, hcu⟩ := mem_requestReviewsReviewers hu
      rcases runLoop_records_from pr1Files envFor _ _ [] [] [] c hc with h | ⟨pr, hpr, hn⟩
      · exact absurd h (List.not_mem_nil c)
      · exact ⟨pr, (List.mem_filter.mp hpr).1, by rw [hn.2, hcu]⟩
    · rw [if_neg hcond] at hu
      exact absurd hu (List.not_mem_nil u)

/-! ## LineRangeFormatter: `formatLineRanges`

Modelled from the spec: no `formatLineRanges` exists under src/ — the only
line-number rendering in the sources is the plain `lineNumbers.join(", ")`
inside `createConflictComment` (src/index.js 298-300).  The spec (§4.5,
§6) exposes `formatLineRanges(sortedLineNumbers) -> string`, compressing
maximal runs of consecutive integers into `"start...end"`; the definitions
below follow the spec's words. -/

/-- Modelled from the spec: render one maximal run — a single element as
itself (not a degenerate range), a longer run as `"start...end"`. -/
def renderRun (r : Int × Int) : String :=
  if r.1 = r.2 then toString r.1 else toString r.1 ++ "..." ++ toString r.2

/-- Modelled from the spec: greedy grouping of the input into maximal runs
of consecutive integers, carrying the current run's start and its last
element seen. -/
def groupRunsAux (runStart prev : Int) : List Int → List (Int × Int)
  | [] => [(runStart, prev)]
  | x :: xs =>
    if x = prev + 1 then groupRunsAux runStart x xs
    else (runStart, prev) :: groupRunsAux x x xs

def groupRuns : List Int → List (Int × Int)
  | [] => []
  | x :: xs => groupRunsAux x x xs

/-- Modelled from the spec: `formatLineRanges(sortedLineNumbers)` —
maximal runs render via `renderRun`, joined by `", "`; empty input gives
the empty string. -/
def formatLineRanges (xs : List Int) : String :=
  String.intercalate ", " ((groupRuns xs).map renderRun)

/-- The integers from `s` to `e` inclusive. -/
def intRange (s e : Int) : List Int :=
  (List.range (e + 1 - s).toNat).map (fun (i : Nat) => s + (i : Int))

/-- Flatten a run decomposition back into the underlying sequence. -/
def flattenRuns (rs : List (Int × Int)) : List Int :=
  (rs.map (fun r => intRange r.1 r.2)).flatten

/-- A decomposition into *maximal* runs: each run nonempty
(`start ≤ end`), consecutive runs separated by a gap of at least 2 (a gap
of 1 would merge them into one run).  An ascending duplicate-free
sequence is `flattenRuns` of exactly one valid decomposition. -/
def validRuns : List (Int × Int) → Bool
  | [] => true
  | [r] => decide (r.1 ≤ r.2)
  | r :: r' :: rs => decide (r.1 ≤ r.2) && decide (r.2 + 2 ≤ r'.1) && validRuns (r' :: rs)

/-- The claim's "ascending unique sequence": adjacent elements strictly
increase. -/
def strictAsc : List Int → Bool
  | [] => true
  | [_] => true
  | a :: b :: t => decide (a < b) && strictAsc (b :: t)

lemma intRange_single (s : Int) : intRange s s = [s] := by
  unfold intRange
  have h : (s + 1 - s).toNat = 1 := by omega
  rw [h]
  norm_num [List.range_succ]

lemma intRange_cons {s e : Int} (h : s ≤ e) :
    intRange s e = s :: intRange (s + 1) e := by
  unfold intRange
  have hn : (e + 1 - s).toNat = (e + 1 - (s + 1)).toNat + 1 := by omega
  rw [hn, List.range_succ_eq_map, List.map_cons, List.map_map]
  refine congrArg₂ List.cons (by simp) ?_
  apply List.map_congr_left
  intro i _
  simp only [Function.comp_apply]
  push_cast [Nat.succ_eq_add_one]
  ring

lemma intRange_snoc {s e : Int} (h : s ≤ e + 1) :
    intRange s (e + 1) = intRange s e ++ [e + 1] := by
  unfold intRange
  have hn : (e + 1 + 1 - s).toNat = (e + 1 - s).toNat + 1 := by omega
  rw [hn, List.range_succ, List.map_append, List.map_singleton]
  congr 1
  have hc : (((e + 1 - s).toNat : Nat) : Int) = e + 1 - s := by omega
  rw [hc]
  congr 1
  omega

/-- Consuming a whole consecutive stretch keeps the machine inside the
same run. -/
lemma groupRunsAux_absorb (runStart : Int) (rest : List Int) :
    ∀ (k : Nat) (prev e : Int), e - prev = k → prev ≤ e →
      groupRunsAux runStart prev (intRange (prev + 1) e ++ rest)
        = groupRunsAux runStart e rest := by
  intro k
  induction k with
  | zero =>
    intro prev e hk hle
    have he : prev = e := by omega
    subst he
    have hnil : intRange (prev + 1) prev = [] := by
      unfold intRange
      have : (prev + 1 - (prev + 1)).toNat = 0 := by omega
      rw [this]
      simp
    rw [hnil, List.nil_append]
  | succ k ih =>
    intro prev e hk hle
    have h1 : prev + 1 ≤ e := by omega
    rw [intRange_cons h1, List.cons_append, groupRunsAux, if_pos rfl]
    exact ih (prev + 1) e (by omega) h1

/-- `groupRuns` inverts `flattenRuns` on valid decompositions: the
grouping recovers exactly the maximal runs. -/
lemma groupRuns_flattenRuns : ∀ rs : List (Int × Int), validRuns rs = true →
    groupRuns (flattenRuns rs) = rs := by
  intro rs
  induction rs with
  | nil => intro _; rfl
  | cons r rest ih =>
    intro hv
    obtain ⟨s, e⟩ := r
    have hflat : flattenRuns ((s, e) :: rest) = intRange s e ++ flattenRuns rest := by
      simp [flattenRuns]
    cases rest with
    | nil =>
      have hse : s ≤ e := by
        simpa [validRuns] using hv
      rw [hflat, intRange_cons hse, List.cons_append, groupRuns,
        groupRunsAux_absorb s _ (e - s).toNat s e (by omega) hse]
      simp [flattenRuns, groupRunsAux]
    | cons r' rest' =>
      obtain ⟨s', e'⟩ := r'
      have hv3 : s ≤ e ∧ e + 2 ≤ s' ∧ validRuns ((s', e') :: rest') = true := by
        unfold validRuns at hv
        simp only [Bool.and_eq_true, decide_eq_true_eq] at hv
        exact ⟨hv.1.1, hv.1.2, hv.2⟩
      have hs'e' : s' ≤ e' := by
        cases rest' with
        | nil => simpa [validRuns] using hv3.2.2
        | cons x t =>
          have := hv3.2.2
          unfold validRuns at this
          simp only [Bool.and_eq_true, decide_eq_true_eq] at this
          exact this.1.1
      rw [hflat, intRange_cons hv3.1, List.cons_append, groupRuns,
        groupRunsAux_absorb s _ (e - s).toNat s e (by omega) hv3.1]
      have hflat' : flattenRuns ((s', e') :: rest')
          = intRange s' e' ++ flattenRuns rest' := by
        simp [flattenRuns]
      rw [hflat', intRange_cons hs'e', List.cons_append, groupRunsAux,
        if_neg (by omega)]
      congr 1
      have hgr : groupRunsAux s' s' (intRange (s' + 1) e' ++ flattenRuns rest')
          = groupRuns (flattenRuns ((s', e') :: rest')) := by
        rw [hflat', intRange_cons hs'e', List.cons_append, groupRuns]
      rw [hgr]
      exact ih hv3.2.2

/-- `flattenRuns` inverts `groupRunsAux` unconditionally. -/
lemma flattenRuns_groupRunsAux :
    ∀ (xs : List Int) (s prev : Int), s ≤ prev →
      flattenRuns (groupRunsAux s prev xs) = intRange s prev ++ xs := by
  intro xs
  induction xs with
  | nil =>
    intro s prev h
    simp [groupRunsAux, flattenRuns]
  | cons x xs ih =>
    intro s prev h
    rw [groupRunsAux]
    by_cases hx : x = prev + 1
    · rw [if_pos hx, ih s x (by omega)]
      subst hx
      rw [intRange_snoc (by omega : s ≤ prev + 1)]
      simp
    · rw [if_neg hx]
      have : flattenRuns ((s, prev) :: groupRunsAux x x xs)
          = intRange s prev ++ flattenRuns (groupRunsAux x x xs) := by
        simp [flattenRuns]
      rw [this, ih x x le_rfl, intRange_single]
      simp

/-- The first run produced by `groupRunsAux` starts at `runStart`. -/
lemma groupRunsAux_head :
    ∀ (xs : List Int) (s prev : Int),
      ∃ e tail, groupRunsAux s prev xs = (s, e) :: tail := by
  intro xs
  induction xs with
  | nil =>
    intro s prev
    exact ⟨prev, [], rfl⟩
  | cons x xs ih =>
    intro s prev
    rw [groupRunsAux]
    by_cases hx : x = prev + 1
    · rw [if_pos hx]
      exact ih s x
    · rw [if_neg hx]
      obtain ⟨e, tail, htail⟩ := ih x x
      exact ⟨prev, groupRunsAux x x xs, rfl⟩

/-- On a strictly ascending input the grouping is a valid maximal-run
decomposition. -/
lemma validRuns_groupRunsAux :
    ∀ (xs : List Int) (s prev : Int), s ≤ prev →
      strictAsc (prev :: xs) = true →
      validRuns (groupRunsAux s prev xs) = true := by
  intro xs
  induction xs with
  | nil =>
    intro s prev h _
    simp [groupRunsAux, validRuns, h]
  | cons x xs ih =>
    intro s prev h hch
    rw [strictAsc] at hch
    simp only [Bool.and_eq_true, decide_eq_true_eq] at hch
    rw [groupRunsAux]
    by_cases hx : x = prev + 1
    · rw [if_pos hx]
      exact ih s x (by omega) hch.2
    · rw [if_neg hx]
      obtain ⟨e, tail, htail⟩ := groupRunsAux_head xs x x
      rw [htail]
      have hvtail : validRuns ((x, e) :: tail) = true := by
        rw [← htail]
        exact ih x x le_rfl hch.2
      rw [validRuns]
      simp only [Bool.and_eq_true, decide_eq_true_eq]
      exact ⟨⟨h, by omega⟩, hvtail⟩

/-- **C9** (spec-modelled: `formatLineRanges` is absent from src/, so it
is modelled from the spec's §4.5).  For every ascending duplicate-free
sequence `xs`: the greedy grouping is a valid decomposition of `xs` into
maximal runs of consecutive integers, and for every valid maximal-run
decomposition `rs` of `xs`, `formatLineRanges xs` renders each run via
`"start...end"` (an isolated integer as itself), joined by `", "`.
Moreover `formatLineRanges [] = ""`, `formatLineRanges [7] = "7"` and
`formatLineRanges [3,4,5,9,10,12] = "3...5, 9...10, 12"`. -/
theorem c9_formatLineRanges (xs : List Int)
    (hasc : strictAsc xs = true) :
    (validRuns (groupRuns xs) = true
      ∧ flattenRuns (groupRuns xs) = xs
      ∧ ∀ rs, validRuns rs = true → flattenRuns rs = xs →
          formatLineRanges xs = String.intercalate ", " (rs.map renderRun))
    ∧ formatLineRanges [] = ""
    ∧ formatLineRanges [7] = "7"
    ∧ formatLineRanges [3, 4, 5, 9, 10, 12] = "3...5, 9...10, 12" := by
  refine ⟨⟨?_, ?_, ?_⟩, by decide, by decide, by decide⟩
  · cases xs with
    | nil => rfl
    | cons x xs =>
      exact validRuns_groupRunsAux xs x x le_rfl hasc
  · cases xs with
    | nil => rfl
    | cons x xs =>
      rw [groupRuns, flattenRuns_groupRunsAux xs x x le_rfl, intRange_single]
      simp
  · intro rs hrs hflat
    unfold formatLineRanges
    rw [← hflat, groupRuns_flattenRuns rs hrs]

/-- Witness for `c9_formatLineRanges` at the spec's example. -/
theorem c9_formatLineRanges_witness :
    validRuns (groupRuns [3, 4, 5, 9, 10, 12]) = true
    ∧ formatLineRanges [3, 4, 5, 9, 10, 12]
        = String.intercalate ", "
            ([((3 : Int), (5 : Int)), (9, 10), (12, 12)].map renderRun) :=
  ⟨(c9_formatLineRanges [3, 4, 5, 9, 10, 12] (by decide)).1.1,
   (c9_formatLineRanges [3, 4, 5, 9, 10, 12] (by decide)).1.2.2
     [((3 : Int), (5 : Int)), (9, 10), (12, 12)] (by decide) (by decide)⟩

/-- Witness for `c10_listingCap` at a concrete run. -/
theorem c10_listingCap_witness :
    ∃ pr ∈ ([⟨1, "alice"⟩, ⟨2, "bob"⟩] : List PR).take 100, pr.number = 2 :=
  (c10_listingCap ⟨1, "alice"⟩ [⟨1, "alice"⟩, ⟨2, "bob"⟩] (some "m") ["a.txt"] ⟨true⟩
      (fun _ => ⟨some "b2", ["a.txt"], ⟨true, true, PairMergeResult.clean, []⟩⟩) []).2.1
    2 (by decide)

end ConflictBot
